import Mathlib

/-!
# Verification of `getprocaddress.c`

A shallow embedding of the single-file library `src/getprocaddress.c`
(martona/getprocaddress), which locates the address of `GetProcAddress`
inside an already-loaded `kernel32` module by walking the PEB loader list
and parsing the PE export directory.

Memory is modelled as a total map from byte addresses to bytes
(`Mem := Nat → Nat`, reads truncated to 8 bits).  The inline-assembly
reads of the C source become explicit little-endian multi-byte reads.
Addresses and machine words are `Nat`; the source runs on x86-64 where
the computed addresses fit in 64 bits and no arithmetic in the relevant
paths wraps, so no `% 2^64` is inserted.

Three views of the code are defined:
* plain functions (`get_kernel32_modulehandle`, `get_image_exportdirectory`,
  `gpa_strcmp`, `get_getprocaddress`), translated line by line;
* an instrumented interpreter (`..._tr`) that threads the memory state and
  logs the address of every byte read, used for the safety / frame /
  access-pattern claims;
* spec-side decompositions (named `..._spec` / `listHead` / `nextLink` /
  `dllBase`) written from the specification's wording, for the refinement
  claims.
-/

/-- Byte-addressed memory: a total map from addresses to bytes. -/
abbrev Mem := Nat → Nat

/-- Read one byte (values are truncated to 8 bits). -/
def read8 (m : Mem) (a : Nat) : Nat := m a % 256

/-- Little-endian 16-bit read (`movzwl` / `((u16*)p)[i]`). -/
def read16 (m : Mem) (a : Nat) : Nat :=
  read8 m a + 256 * read8 m (a + 1)

/-- Little-endian 32-bit read (`movl` / `((u32*)p)[i]`). -/
def read32 (m : Mem) (a : Nat) : Nat :=
  read8 m a + 256 * read8 m (a + 1) + 65536 * read8 m (a + 2) +
    16777216 * read8 m (a + 3)

/-- Little-endian 64-bit read (`movq`). -/
def read64 (m : Mem) (a : Nat) : Nat :=
  read8 m a + 256 * read8 m (a + 1) + 65536 * read8 m (a + 2) +
    16777216 * read8 m (a + 3) + 4294967296 * read8 m (a + 4) +
    1099511627776 * read8 m (a + 5) + 281474976710656 * read8 m (a + 6) +
    72057594037927936 * read8 m (a + 7)

/-- Embedding of `get_kernel32_modulehandle` (src/getprocaddress.c:75–89).  The
`%gs`-segment base is the extra parameter `gs`; each `movq` of the inline
assembly is one 64-bit read:
`rax := [gs+0x60]` (PEB); `rax := [rax+0x18]` (PEB_LDR_DATA);
`rax := [rax+0x20]` (first list entry); two `rax := [rax]` (next links);
`rax := [rax+0x20]` (DllBase). -/
def get_kernel32_modulehandle (m : Mem) (gs : Nat) : Nat :=
  let peb := read64 m (gs + 0x60)
  let ldr := read64 m (peb + 0x18)
  let e1 := read64 m (ldr + 0x20)
  let e2 := read64 m e1
  let e3 := read64 m e2
  read64 m (e3 + 0x20)

/-- Embedding of `get_image_exportdirectory` (src/getprocaddress.c:92–108):
`eax := [mh+0x3c]` (e_lfanew, 32-bit); `rax := mh + eax`;
`lea 0x18; lea 0x70; lea 0x00`; `edx := [rax]` (export RVA, 32-bit);
result `mh + edx`. -/
def get_image_exportdirectory (m : Mem) (mh : Nat) : Nat :=
  let e_lfanew := read32 m (mh + 0x3c)
  let rva := read32 m (mh + e_lfanew + 0x18 + 0x70)
  mh + rva

/-- Sign-extend a byte value to the signed `char` the C source subtracts
(`char` is signed on the target). -/
def sgn8 (c : Nat) : Int := if c < 128 then (c : Int) else (c : Int) - 256

/-- Embedding of `gpa_strcmp` (src/getprocaddress.c:112–118) over two null-terminated
byte strings, each represented as its list of pre-terminator bytes:
`while (*a && *b && *a == *b) { a++; b++; } return *a - *b;`. -/
def gpa_strcmp : List Nat → List Nat → Int
  | x :: as, y :: bs =>
    if x ≠ 0 ∧ y ≠ 0 ∧ x = y then gpa_strcmp as bs else sgn8 x - sgn8 y
  | x :: _, [] => sgn8 x - sgn8 0
  | [], y :: _ => sgn8 0 - sgn8 y
  | [], [] => sgn8 0 - sgn8 0

/-- The same loop of `gpa_strcmp` with the first argument a pointer into
memory and the second a byte-string value (the call site passes the
literal `"GetProcAddress"`); the loop advances past at most `t.length`
characters because it stops when `*b` reaches the terminator. -/
def gpa_strcmp_mem (m : Mem) : Nat → List Nat → Int
  | a, c :: cs =>
    if read8 m a ≠ 0 ∧ c ≠ 0 ∧ read8 m a = c then gpa_strcmp_mem m (a + 1) cs
    else sgn8 (read8 m a) - sgn8 c
  | a, [] => sgn8 (read8 m a) - sgn8 0

/-- The byte string `"GetProcAddress"` (the literal at
src/getprocaddress.c:140). -/
def targetName : List Nat :=
  [71, 101, 116, 80, 114, 111, 99, 65, 100, 100, 114, 101, 115, 115]

/-- The scan loop of `get_getprocaddress` (src/getprocaddress.c:135–143),
generalised over the target string `t`; `i` is the loop counter and `k`
the number of remaining iterations (`k = num_names - i`).  Each
iteration reads, in source order, `nameoffset = ((u32*)aon)[i]`,
`ordinal = ((u16*)aono)[i]`, `function = ((u32*)aof)[ordinal]`, then
compares the string at `nameoffset + mh` with `t`. -/
def gpa_loop (m : Mem) (mh aon aof aono : Nat) (t : List Nat) :
    Nat → Nat → Nat
  | _, 0 => 0
  | i, k + 1 =>
    let nameoffset := read32 m (aon + 4 * i)
    let ordinal := read16 m (aono + 2 * i)
    let function := read32 m (aof + 4 * ordinal)
    if gpa_strcmp_mem m (nameoffset + mh) t = 0 then function + mh
    else gpa_loop m mh aon aof aono t (i + 1) k

/-- Embedding of `get_getprocaddress` generalised over the target name
(src/getprocaddress.c:129–145): locate the export directory, read
`NumberOfNames` (offset 24), `AddressOfNames` (32), `AddressOfFunctions`
(28), `AddressOfNameOrdinals` (36), then run the scan loop from index 0. -/
def gpa_resolve (m : Mem) (mh : Nat) (t : List Nat) : Nat :=
  let ed := get_image_exportdirectory m mh
  let num_names := read32 m (ed + 24)
  let aon := read32 m (ed + 32) + mh
  let aof := read32 m (ed + 28) + mh
  let aono := read32 m (ed + 36) + mh
  gpa_loop m mh aon aof aono t 0 num_names

/-- Embedding of `get_getprocaddress` (src/getprocaddress.c:129–145): the resolver at
the hard-coded literal `"GetProcAddress"`. -/
def get_getprocaddress (m : Mem) (mh : Nat) : Nat :=
  gpa_resolve m mh targetName

/-! ## Instrumented interpreter

The same code, threading an explicit machine state `St` (the memory
together with the log of every byte address read so far) through each
primitive read.  The memory component is returned by every operation, so
that "the code never writes" is a provable property of the embedding
rather than an artefact of its type. -/

/-- Machine state for the instrumented run: the memory and the list of
byte addresses read so far, in order. -/
abbrev St := Mem × List Nat

/-- Instrumented byte read: returns the byte and the state with the
address appended to the read log. -/
def rd8 (a : Nat) (s : St) : Nat × St :=
  (s.1 a % 256, (s.1, s.2 ++ [a]))

/-- Instrumented little-endian 16-bit read. -/
def rd16 (a : Nat) (s : St) : Nat × St :=
  let (b0, s0) := rd8 a s
  let (b1, s1) := rd8 (a + 1) s0
  (b0 + 256 * b1, s1)

/-- Instrumented little-endian 32-bit read. -/
def rd32 (a : Nat) (s : St) : Nat × St :=
  let (b0, s0) := rd8 a s
  let (b1, s1) := rd8 (a + 1) s0
  let (b2, s2) := rd8 (a + 2) s1
  let (b3, s3) := rd8 (a + 3) s2
  (b0 + 256 * b1 + 65536 * b2 + 16777216 * b3, s3)

/-- Instrumented little-endian 64-bit read. -/
def rd64 (a : Nat) (s : St) : Nat × St :=
  let (b0, s0) := rd8 a s
  let (b1, s1) := rd8 (a + 1) s0
  let (b2, s2) := rd8 (a + 2) s1
  let (b3, s3) := rd8 (a + 3) s2
  let (b4, s4) := rd8 (a + 4) s3
  let (b5, s5) := rd8 (a + 5) s4
  let (b6, s6) := rd8 (a + 6) s5
  let (b7, s7) := rd8 (a + 7) s6
  (b0 + 256 * b1 + 65536 * b2 + 16777216 * b3 + 4294967296 * b4 +
    1099511627776 * b5 + 281474976710656 * b6 + 72057594037927936 * b7, s7)

/-- Instrumented `get_kernel32_modulehandle`. -/
def get_kernel32_modulehandle_tr (gs : Nat) (s : St) : Nat × St :=
  let (peb, s0) := rd64 (gs + 0x60) s
  let (ldr, s1) := rd64 (peb + 0x18) s0
  let (e1, s2) := rd64 (ldr + 0x20) s1
  let (e2, s3) := rd64 e1 s2
  let (e3, s4) := rd64 e2 s3
  rd64 (e3 + 0x20) s4

/-- Instrumented `get_image_exportdirectory`. -/
def get_image_exportdirectory_tr (mh : Nat) (s : St) : Nat × St :=
  let (e_lfanew, s0) := rd32 (mh + 0x3c) s
  let (rva, s1) := rd32 (mh + e_lfanew + 0x18 + 0x70) s0
  (mh + rva, s1)

/-- Instrumented `gpa_strcmp` with the first argument a memory pointer. -/
def gpa_strcmp_tr : Nat → List Nat → St → Int × St
  | a, c :: cs, s =>
    let (x, s0) := rd8 a s
    if x ≠ 0 ∧ c ≠ 0 ∧ x = c then gpa_strcmp_tr (a + 1) cs s0
    else (sgn8 x - sgn8 c, s0)
  | a, [], s =>
    let (x, s0) := rd8 a s
    (sgn8 x - sgn8 0, s0)

/-- Instrumented scan loop. -/
def gpa_loop_tr (mh aon aof aono : Nat) (t : List Nat) :
    Nat → Nat → St → Nat × St
  | _, 0, s => (0, s)
  | i, k + 1, s =>
    let (nameoffset, s0) := rd32 (aon + 4 * i) s
    let (ordinal, s1) := rd16 (aono + 2 * i) s0
    let (function, s2) := rd32 (aof + 4 * ordinal) s1
    let (c, s3) := gpa_strcmp_tr (nameoffset + mh) t s2
    if c = 0 then (function + mh, s3)
    else gpa_loop_tr mh aon aof aono t (i + 1) k s3

/-- Instrumented resolver (generalised over the target string). -/
def gpa_resolve_tr (mh : Nat) (t : List Nat) (s : St) : Nat × St :=
  let (ed, s0) := get_image_exportdirectory_tr mh s
  let (num_names, s1) := rd32 (ed + 24) s0
  let (aonRva, s2) := rd32 (ed + 32) s1
  let (aofRva, s3) := rd32 (ed + 28) s2
  let (aonoRva, s4) := rd32 (ed + 36) s3
  gpa_loop_tr mh (aonRva + mh) (aofRva + mh) (aonoRva + mh) t 0 num_names s4

/-- Instrumented `get_getprocaddress`. -/
def get_getprocaddress_tr (mh : Nat) (s : St) : Nat × St :=
  gpa_resolve_tr mh targetName s

/-! ## Abstract view of a loaded export table

`ExpTable` records the contents of an export directory as functions of
the index, and `tableLoaded m mh et` says that memory `m`, with the
module mapped at base `mh`, actually holds those contents where the scan
of `get_getprocaddress` reads them. -/

/-- The byte string `s` lies at address `a` in memory `m`, followed by a
null terminator. -/
def strAt (m : Mem) : Nat → List Nat → Bool
  | a, [] => read8 m a == 0
  | a, c :: cs => (read8 m a == c) && strAt m (a + 1) cs

/-- A well-formed null-terminated string value: every byte is nonzero
and fits in one byte. -/
def ValidStr (s : List Nat) : Prop := ∀ c ∈ s, 0 < c ∧ c < 256

instance (s : List Nat) : Decidable (ValidStr s) :=
  List.decidableBAll _ s

/-- Abstract contents of an export directory: the header counts and table
RVAs, and the entries of the three parallel arrays (`nameOff` and `ord`
indexed by name position, `fn` indexed by ordinal), together with the
name string stored at each name RVA. -/
structure ExpTable where
  numNames : Nat
  aofRva : Nat
  aonRva : Nat
  aonoRva : Nat
  nameOff : Nat → Nat
  ord : Nat → Nat
  fn : Nat → Nat
  name : Nat → List Nat

/-- Memory `m` holds export table `et` for the module based at `mh`:
the four header fields read back the recorded values, and for every name
index `i < numNames` the name-offset entry, the ordinal entry, the
function entry selected by that ordinal, and the name string itself read
back the recorded contents (each name string being a valid
null-terminated string). -/
def tableLoaded (m : Mem) (mh : Nat) (et : ExpTable) : Prop :=
  read32 m (get_image_exportdirectory m mh + 24) = et.numNames ∧
  read32 m (get_image_exportdirectory m mh + 28) = et.aofRva ∧
  read32 m (get_image_exportdirectory m mh + 32) = et.aonRva ∧
  read32 m (get_image_exportdirectory m mh + 36) = et.aonoRva ∧
  (∀ i, i < et.numNames → read32 m (et.aonRva + mh + 4 * i) = et.nameOff i) ∧
  (∀ i, i < et.numNames → read16 m (et.aonoRva + mh + 2 * i) = et.ord i) ∧
  (∀ i, i < et.numNames →
    read32 m (et.aofRva + mh + 4 * et.ord i) = et.fn (et.ord i)) ∧
  (∀ i, i < et.numNames →
    strAt m (et.nameOff i + mh) (et.name i) = true ∧ ValidStr (et.name i))

instance (m : Mem) (mh : Nat) (et : ExpTable) : Decidable (tableLoaded m mh et) := by
  unfold tableLoaded
  infer_instance

/-! ## Concrete synthetic memories

Finite memories built from (address, byte) association lists, used to
witness the conditional theorems on explicit inputs.  Unassigned
addresses read as `0`, which conveniently provides the string
terminators. -/

/-- Memory from an association list of (address, byte); default `0`. -/
def memOf (l : List (Nat × Nat)) : Mem := fun a => (l.lookup a).getD 0

/-- Little-endian 32-bit store as an association list fragment. -/
def enc32 (a v : Nat) : List (Nat × Nat) :=
  [(a, v % 256), (a + 1, v / 256 % 256), (a + 2, v / 65536 % 256),
    (a + 3, v / 16777216 % 256)]

/-- Little-endian 16-bit store as an association list fragment. -/
def enc16 (a v : Nat) : List (Nat × Nat) :=
  [(a, v % 256), (a + 1, v / 256 % 256)]

/-- Byte-string store as an association list fragment. -/
def encStr (a : Nat) : List Nat → List (Nat × Nat)
  | [] => []
  | c :: cs => (a, c) :: encStr (a + 1) cs

/-- A synthetic PE image at base 0 whose export table has a single name,
`"GetProcAddress"`, with ordinal 0 and function offset `0x500`. -/
def mem1 : Mem := memOf
  (enc32 0x3c 0x80 ++ enc32 0x108 0x200 ++
   enc32 0x218 1 ++ enc32 0x21c 0x300 ++ enc32 0x220 0x320 ++
   enc32 0x224 0x340 ++
   enc32 0x320 0x400 ++ enc16 0x340 0 ++ enc32 0x300 0x500 ++
   encStr 0x400 targetName)

/-- The abstract contents of `mem1`. -/
def et1 : ExpTable where
  numNames := 1
  aofRva := 0x300
  aonRva := 0x320
  aonoRva := 0x340
  nameOff := fun _ => 0x400
  ord := fun _ => 0
  fn := fun _ => 0x500
  name := fun _ => targetName

/-- A synthetic PE image at base 0 whose export table has a single name,
`"Gadget"`, with ordinal 0 and function offset `0x500`; the target name
is absent. -/
def mem2 : Mem := memOf
  (enc32 0x3c 0x80 ++ enc32 0x108 0x200 ++
   enc32 0x218 1 ++ enc32 0x21c 0x300 ++ enc32 0x220 0x320 ++
   enc32 0x224 0x340 ++
   enc32 0x320 0x400 ++ enc16 0x340 0 ++ enc32 0x300 0x500 ++
   encStr 0x400 [71, 97, 100, 103, 101, 116])

/-- The abstract contents of `mem2`. -/
def et2 : ExpTable where
  numNames := 1
  aofRva := 0x300
  aonRva := 0x320
  aonoRva := 0x340
  nameOff := fun _ => 0x400
  ord := fun _ => 0
  fn := fun _ => 0x500
  name := fun _ => [71, 97, 100, 103, 101, 116]

/-- A synthetic PE image at base 0 with two exported names, `"Alpha"`
and `"Beta"`, both carrying ordinal 5 (aliases of the function whose
offset `0x777` sits at position 5 of the function-offset array). -/
def mem3 : Mem := memOf
  (enc32 0x3c 0x80 ++ enc32 0x108 0x200 ++
   enc32 0x218 2 ++ enc32 0x21c 0x300 ++ enc32 0x220 0x320 ++
   enc32 0x224 0x340 ++
   enc32 0x320 0x400 ++ enc32 0x324 0x410 ++
   enc16 0x340 5 ++ enc16 0x342 5 ++ enc32 0x314 0x777 ++
   encStr 0x400 [65, 108, 112, 104, 97] ++
   encStr 0x410 [66, 101, 116, 97])

/-- The abstract contents of `mem3`. -/
def et3 : ExpTable where
  numNames := 2
  aofRva := 0x300
  aonRva := 0x320
  aonoRva := 0x340
  nameOff := fun i => if i = 0 then 0x400 else 0x410
  ord := fun _ => 5
  fn := fun _ => 0x777
  name := fun i => if i = 0 then [65, 108, 112, 104, 97] else [66, 101, 116, 97]

/-- A synthetic PE image at base 0 whose export directory reports zero
named exports (all directory fields zero). -/
def mem0 : Mem := memOf (enc32 0x3c 0x80 ++ enc32 0x108 0x200)

/-! ## Read footprints

Explicit descriptions of the byte addresses each instrumented run reads,
proved below to coincide with the logs produced by the `..._tr`
interpreter. -/

/-- The two byte addresses of a 16-bit read. -/
def addrs2 (a : Nat) : List Nat := [a, a + 1]

/-- The four byte addresses of a 32-bit read. -/
def addrs4 (a : Nat) : List Nat := [a, a + 1, a + 2, a + 3]

/-- The eight byte addresses of a 64-bit read. -/
def addrs8 (a : Nat) : List Nat :=
  [a, a + 1, a + 2, a + 3, a + 4, a + 5, a + 6, a + 7]

/-- The byte addresses `gpa_strcmp` reads from its memory argument when
comparing against the string value `t`. -/
def strcmpLog (m : Mem) : Nat → List Nat → List Nat
  | a, [] => [a]
  | a, c :: cs =>
    if read8 m a ≠ 0 ∧ c ≠ 0 ∧ read8 m a = c then a :: strcmpLog m (a + 1) cs
    else [a]

/-- The byte addresses one iteration of the scan loop reads: the
name-offset entry, the ordinal entry, the function entry selected by
that ordinal, and the string comparison. -/
def iterLog (m : Mem) (mh aon aof aono : Nat) (t : List Nat) (i : Nat) :
    List Nat :=
  addrs4 (aon + 4 * i) ++ addrs2 (aono + 2 * i) ++
    addrs4 (aof + 4 * read16 m (aono + 2 * i)) ++
    strcmpLog m (read32 m (aon + 4 * i) + mh) t

/-- The byte addresses the scan loop reads, starting at index `i` with
`k` iterations remaining. -/
def loopLog (m : Mem) (mh aon aof aono : Nat) (t : List Nat) :
    Nat → Nat → List Nat
  | _, 0 => []
  | i, k + 1 =>
    iterLog m mh aon aof aono t i ++
      (if gpa_strcmp_mem m (read32 m (aon + 4 * i) + mh) t = 0 then []
       else loopLog m mh aon aof aono t (i + 1) k)

/-- The byte addresses `get_getprocaddress` reads before entering the
scan loop: the DOS-header field, the data-directory entry, and the four
export-directory header fields, in source order. -/
def headerLog (m : Mem) (mh : Nat) : List Nat :=
  addrs4 (mh + 0x3c) ++ addrs4 (mh + read32 m (mh + 0x3c) + 0x18 + 0x70) ++
    addrs4 (get_image_exportdirectory m mh + 24) ++
    addrs4 (get_image_exportdirectory m mh + 32) ++
    addrs4 (get_image_exportdirectory m mh + 28) ++
    addrs4 (get_image_exportdirectory m mh + 36)

/-- The full byte-address footprint of one `gpa_resolve` run. -/
def resolveLog (m : Mem) (mh : Nat) (t : List Nat) : List Nat :=
  headerLog m mh ++
    loopLog m mh (read32 m (get_image_exportdirectory m mh + 32) + mh)
      (read32 m (get_image_exportdirectory m mh + 28) + mh)
      (read32 m (get_image_exportdirectory m mh + 36) + mh) t 0
      (read32 m (get_image_exportdirectory m mh + 24))

/-- The full byte-address footprint of one `get_kernel32_modulehandle`
run. -/
def k32Log (m : Mem) (gs : Nat) : List Nat :=
  let peb := read64 m (gs + 0x60)
  let ldr := read64 m (peb + 0x18)
  let e1 := read64 m (ldr + 0x20)
  let e2 := read64 m e1
  let e3 := read64 m e2
  addrs8 (gs + 0x60) ++ addrs8 (peb + 0x18) ++ addrs8 (ldr + 0x20) ++
    addrs8 e1 ++ addrs8 e2 ++ addrs8 (e3 + 0x20)

/-! ## Spec-side decompositions

Definitions that follows the specification's wording (§4.1, §4.2),
against which the source-translated functions are compared. -/

/-- Spec section 4.2 wording of the export-directory locator: read the
image-header offset at `module_base + 0x3c`, add it to the base to
reach the extended header, read the export RVA at the two further fixed
offsets `0x18` then `0x70`, and return `module_base + rva`. -/
def locate_export_directory_spec (m : Mem) (mh : Nat) : Nat :=
  mh + read32 m ((mh + read32 m (mh + 0x3c)) + (0x18 + 0x70))

/-- Spec section 4.1 loader module list head: the PEB address read at the fixed
`gs`-relative offset, followed by the two fixed-offset dereferences. -/
def listHead (m : Mem) (gs : Nat) : Nat :=
  read64 m (read64 m (read64 m (gs + 0x60) + 0x18) + 0x20)

/-- Spec section 4.1 "next" link: one pointer dereference at offset 0 of a list
entry. -/
def nextLink (m : Mem) (p : Nat) : Nat := read64 m p

/-- Spec section 4.1 module base address field, at fixed offset `0x20` of a
module record. -/
def dllBase (m : Mem) (r : Nat) : Nat := read64 m (r + 0x20)

/-- The `n`-th entry of the loader module list (0-based: entry 0 is the
list head, entry `n+1` is reached by one more "next" link). -/
def moduleEntry (m : Mem) (gs : Nat) : Nat → Nat
  | 0 => listHead m gs
  | n + 1 => nextLink m (moduleEntry m gs n)

/-! ## String comparison -/

theorem read8_lt (m : Mem) (a : Nat) : read8 m a < 256 :=
  Nat.mod_lt _ (by norm_num)

theorem sgn8_sub_eq_zero {x y : Nat} (hx : x < 256) (hy : y < 256) :
    sgn8 x - sgn8 y = 0 ↔ x = y := by
  unfold sgn8
  split <;> split <;> omega

theorem strcmp_mem_spec {m : Mem} (t : List Nat) :
    ∀ (a : Nat) (s : List Nat),
      strAt m a s = true → ValidStr s → ValidStr t →
      (gpa_strcmp_mem m a t = 0 ↔ s = t) := by
  induction t with
  | nil =>
    intro a s hs hvs _
    cases s with
    | nil =>
      simp only [strAt, beq_iff_eq] at hs
      simp [gpa_strcmp_mem, hs]
    | cons c cs =>
      simp only [strAt, Bool.and_eq_true, beq_iff_eq] at hs
      have hc := hvs c (List.mem_cons_self c cs)
      simp only [gpa_strcmp_mem, hs.1]
      rw [sgn8_sub_eq_zero hc.2 (by norm_num)]
      simp
      omega
  | cons c cs ih =>
    intro a s hs hvs hvt
    have hc := hvt c (List.mem_cons_self c cs)
    have hvt' : ValidStr cs := fun x hx => hvt x (List.mem_cons_of_mem c hx)
    cases s with
    | nil =>
      simp only [strAt, beq_iff_eq] at hs
      simp only [gpa_strcmp_mem, hs]
      rw [if_neg (by omega)]
      rw [sgn8_sub_eq_zero (by norm_num) hc.2]
      simp
      omega
    | cons x xs =>
      simp only [strAt, Bool.and_eq_true, beq_iff_eq] at hs
      have hx := hvs x (List.mem_cons_self x xs)
      have hvs' : ValidStr xs := fun y hy => hvs y (List.mem_cons_of_mem x hy)
      simp only [gpa_strcmp_mem, hs.1]
      by_cases hxc : x = c
      · rw [if_pos ⟨by omega, by omega, hxc⟩]
        rw [ih (a + 1) xs hs.2 hvs' hvt']
        subst hxc
        simp
      · rw [if_neg (by tauto)]
        rw [sgn8_sub_eq_zero hx.2 hc.2]
        simp [hxc]

/-- C4:  For every pair of well-formed null-terminated byte strings
`a` and `b`, `gpa_strcmp a b` is zero iff `a` and `b` are byte-for-byte
equal up to and including the terminator, and nonzero otherwise. -/
theorem gpa_strcmp_eq_zero_iff :
    ∀ (a b : List Nat), ValidStr a → ValidStr b →
      (gpa_strcmp a b = 0 ↔ a = b) := by
  intro a
  induction a with
  | nil =>
    intro b _ hvb
    cases b with
    | nil => simp [gpa_strcmp]
    | cons y bs =>
      have hy := hvb y (List.mem_cons_self y bs)
      simp only [gpa_strcmp]
      rw [sgn8_sub_eq_zero (by norm_num) hy.2]
      simp
      omega
  | cons x as ih =>
    intro b hva hvb
    have hx := hva x (List.mem_cons_self x as)
    have hva' : ValidStr as := fun y hy => hva y (List.mem_cons_of_mem x hy)
    cases b with
    | nil =>
      simp only [gpa_strcmp]
      rw [sgn8_sub_eq_zero hx.2 (by norm_num)]
      simp
      omega
    | cons y bs =>
      have hy := hvb y (List.mem_cons_self y bs)
      have hvb' : ValidStr bs := fun z hz => hvb z (List.mem_cons_of_mem y hz)
      simp only [gpa_strcmp]
      by_cases hxy : x = y
      · rw [if_pos ⟨by omega, by omega, hxy⟩]
        rw [ih bs hva' hvb']
        subst hxy
        simp
      · rw [if_neg (by tauto)]
        rw [sgn8_sub_eq_zero hx.2 hy.2]
        simp [hxy]

/-- Witness for C4: the theorem applied to `"GetProcAddress"` against
itself. -/
theorem gpa_strcmp_eq_zero_iff_witness :
    ValidStr targetName ∧ (gpa_strcmp targetName targetName = 0 ↔ targetName = targetName) :=
  ⟨by decide, gpa_strcmp_eq_zero_iff targetName targetName (by decide) (by decide)⟩

/-! ## The name scan -/

theorem gpa_loop_notfound {m : Mem} {mh : Nat} {et : ExpTable} {t : List Nat}
    (hl : tableLoaded m mh et) (hvt : ValidStr t) :
    ∀ k i, i + k = et.numNames →
      (∀ j, i ≤ j → j < et.numNames → et.name j ≠ t) →
      gpa_loop m mh (et.aonRva + mh) (et.aofRva + mh) (et.aonoRva + mh) t i k
        = 0 := by
  obtain ⟨hN, hF, hA, hO, hno, hord, hfn, hstr⟩ := hl
  intro k
  induction k with
  | zero => intro i _ _; rfl
  | succ k ih =>
    intro i hik habs
    have hiN : i < et.numNames := by omega
    simp only [gpa_loop]
    rw [hno i hiN]
    have hcmp := strcmp_mem_spec t (et.nameOff i + mh) (et.name i)
      (hstr i hiN).1 (hstr i hiN).2 hvt
    rw [if_neg (by rw [hcmp]; exact habs i (Nat.le_refl i) hiN)]
    exact ih (i + 1) (by omega) (fun j hj hjN => habs j (by omega) hjN)

theorem gpa_loop_found {m : Mem} {mh : Nat} {et : ExpTable} {t : List Nat}
    (hl : tableLoaded m mh et) (hvt : ValidStr t) :
    ∀ k i f, i + k = et.numNames → i ≤ f → f < et.numNames →
      et.name f = t → (∀ j, i ≤ j → j < f → et.name j ≠ t) →
      gpa_loop m mh (et.aonRva + mh) (et.aofRva + mh) (et.aonoRva + mh) t i k
        = et.fn (et.ord f) + mh := by
  obtain ⟨hN, hF, hA, hO, hno, hord, hfn, hstr⟩ := hl
  intro k
  induction k with
  | zero => intro i f hik hif hfN _ _; omega
  | succ k ih =>
    intro i f hik hif hfN hmatch hpre
    have hiN : i < et.numNames := by omega
    simp only [gpa_loop]
    rw [hno i hiN]
    have hcmp := strcmp_mem_spec t (et.nameOff i + mh) (et.name i)
      (hstr i hiN).1 (hstr i hiN).2 hvt
    rcases Nat.eq_or_lt_of_le hif with hif' | hif'
    · rw [if_pos (by rw [hcmp, hif']; exact hmatch)]
      rw [hord i hiN, hfn i hiN, hif']
    · rw [if_neg (by rw [hcmp]; exact hpre i (Nat.le_refl i) hif')]
      exact ih (i + 1) f (by omega) hif' hfN hmatch
        (fun j hj hjf => hpre j (by omega) hjf)

theorem gpa_resolve_eq {m : Mem} {mh : Nat} {et : ExpTable} (t : List Nat)
    (hl : tableLoaded m mh et) :
    gpa_resolve m mh t =
      gpa_loop m mh (et.aonRva + mh) (et.aofRva + mh) (et.aonoRva + mh) t 0
        et.numNames := by
  obtain ⟨hN, hF, hA, hO, _⟩ := hl
  simp only [gpa_resolve]
  rw [hN, hF, hA, hO]

/-- C1:  For every well-formed loaded export table and module base, if
`f` is the first name index whose string equals `"GetProcAddress"`, then
`get_getprocaddress` returns the module base plus the function offset
stored at position `ordinal[f]` of the function-offset array. -/
theorem getprocaddress_first_match {m : Mem} {mh : Nat} {et : ExpTable}
    {f : Nat} (hl : tableLoaded m mh et) (hf : f < et.numNames)
    (hname : et.name f = targetName)
    (hfirst : ∀ j, j < f → et.name j ≠ targetName) :
    get_getprocaddress m mh = mh + et.fn (et.ord f) := by
  have hvt : ValidStr targetName := by decide
  unfold get_getprocaddress
  rw [gpa_resolve_eq targetName hl]
  rw [gpa_loop_found hl hvt et.numNames 0 f (by omega) (Nat.zero_le f) hf
    hname (fun j _ hjf => hfirst j hjf)]
  exact Nat.add_comm _ _

/-- Witness for C1: the synthetic image `mem1` exports
`"GetProcAddress"` at name index 0 with ordinal 0 and function offset
`0x500`; resolution returns `0 + 0x500`. -/
theorem getprocaddress_first_match_witness :
    tableLoaded mem1 0 et1 ∧ get_getprocaddress mem1 0 = 0 + et1.fn (et1.ord 0) :=
  ⟨by decide,
    @getprocaddress_first_match mem1 0 et1 0 (by decide) (by decide) (by decide)
      (fun j hj => absurd hj (Nat.not_lt_zero j))⟩

/-- C2:  For every loaded export table none of whose name strings
equals `"GetProcAddress"`, `get_getprocaddress` returns the not-found
sentinel 0. -/
theorem getprocaddress_not_found {m : Mem} {mh : Nat} {et : ExpTable}
    (hl : tableLoaded m mh et)
    (habs : ∀ j, j < et.numNames → et.name j ≠ targetName) :
    get_getprocaddress m mh = 0 := by
  have hvt : ValidStr targetName := by decide
  unfold get_getprocaddress
  rw [gpa_resolve_eq targetName hl]
  exact gpa_loop_notfound hl hvt et.numNames 0 (by omega)
    (fun j _ hjN => habs j hjN)

/-- Witness for C2: the synthetic image `mem2` exports only `"Gadget"`;
resolution returns 0. -/
theorem getprocaddress_not_found_witness :
    tableLoaded mem2 0 et2 ∧ get_getprocaddress mem2 0 = 0 :=
  ⟨by decide, @getprocaddress_not_found mem2 0 et2 (by decide) (by decide)⟩

/-- C8:  Two exported names whose ordinals select the same
function-offset entry resolve (each as the first occurrence of its own
name) to the same absolute address. -/
theorem resolve_alias {m : Mem} {mh : Nat} {et : ExpTable} {i j : Nat}
    (hl : tableLoaded m mh et)
    (hi : i < et.numNames) (hj : j < et.numNames)
    (hord : et.ord i = et.ord j)
    (hfi : ∀ k, k < i → et.name k ≠ et.name i)
    (hfj : ∀ k, k < j → et.name k ≠ et.name j) :
    gpa_resolve m mh (et.name i) = gpa_resolve m mh (et.name j) := by
  have hvi : ValidStr (et.name i) := ((hl.2.2.2.2.2.2.2) i hi).2
  have hvj : ValidStr (et.name j) := ((hl.2.2.2.2.2.2.2) j hj).2
  rw [gpa_resolve_eq (et.name i) hl, gpa_resolve_eq (et.name j) hl]
  rw [gpa_loop_found hl hvi et.numNames 0 i (by omega) (Nat.zero_le i) hi rfl
    (fun k _ hk => hfi k hk)]
  rw [gpa_loop_found hl hvj et.numNames 0 j (by omega) (Nat.zero_le j) hj rfl
    (fun k _ hk => hfj k hk)]
  rw [hord]

/-- Witness for C8: in `mem3` the names `"Alpha"` (index 0) and
`"Beta"` (index 1) both carry ordinal 5; both resolve to the same
address. -/
theorem resolve_alias_witness :
    tableLoaded mem3 0 et3 ∧
      gpa_resolve mem3 0 (et3.name 0) = gpa_resolve mem3 0 (et3.name 1) :=
  ⟨by decide,
    @resolve_alias mem3 0 et3 0 1 (by decide) (by decide) (by decide) (by decide)
      (fun k hk => absurd hk (Nat.not_lt_zero k)) (by decide)⟩

/-! ## Agreement between the instrumented interpreter and the plain
functions: same values, unchanged memory, and the read log described by
the footprint definitions. -/

theorem rd8_eq (a : Nat) (m : Mem) (l : List Nat) :
    rd8 a (m, l) = (read8 m a, (m, l ++ [a])) := rfl

theorem rd16_eq (a : Nat) (m : Mem) (l : List Nat) :
    rd16 a (m, l) = (read16 m a, (m, l ++ addrs2 a)) := by
  simp [rd16, rd8, read16, read8, addrs2]

theorem rd32_eq (a : Nat) (m : Mem) (l : List Nat) :
    rd32 a (m, l) = (read32 m a, (m, l ++ addrs4 a)) := by
  simp [rd32, rd8, read32, read8, addrs4]

theorem rd64_eq (a : Nat) (m : Mem) (l : List Nat) :
    rd64 a (m, l) = (read64 m a, (m, l ++ addrs8 a)) := by
  simp [rd64, rd8, read64, read8, addrs8]

theorem gpa_strcmp_tr_eq (t : List Nat) :
    ∀ (a : Nat) (m : Mem) (l : List Nat),
      gpa_strcmp_tr a t (m, l) =
        (gpa_strcmp_mem m a t, (m, l ++ strcmpLog m a t)) := by
  induction t with
  | nil =>
    intro a m l
    simp [gpa_strcmp_tr, gpa_strcmp_mem, strcmpLog, rd8, read8]
  | cons c cs ih =>
    intro a m l
    simp only [gpa_strcmp_tr, rd8_eq]
    by_cases h : read8 m a ≠ 0 ∧ c ≠ 0 ∧ read8 m a = c
    · simp only [if_pos h, ih (a + 1) m (l ++ [a]),
        gpa_strcmp_mem, strcmpLog, List.append_assoc, List.cons_append,
        List.nil_append]
    · simp only [if_neg h, gpa_strcmp_mem, strcmpLog, List.append_assoc,
        List.cons_append, List.nil_append]

theorem gpa_loop_tr_eq (m : Mem) (mh aon aof aono : Nat) (t : List Nat) :
    ∀ (k i : Nat) (l : List Nat),
      gpa_loop_tr mh aon aof aono t i k (m, l) =
        (gpa_loop m mh aon aof aono t i k,
          (m, l ++ loopLog m mh aon aof aono t i k)) := by
  intro k
  induction k with
  | zero => intro i l; simp [gpa_loop_tr, gpa_loop, loopLog]
  | succ k ih =>
    intro i l
    simp only [gpa_loop_tr, rd32_eq, rd16_eq, gpa_strcmp_tr_eq]
    by_cases h : gpa_strcmp_mem m (read32 m (aon + 4 * i) + mh) t = 0
    · simp only [if_pos h, gpa_loop, loopLog, iterLog, if_pos h,
        List.append_assoc, List.append_nil]
    · simp only [if_neg h, ih (i + 1), gpa_loop, loopLog, iterLog,
        if_neg h, List.append_assoc]

theorem get_image_exportdirectory_tr_eq (mh : Nat) (m : Mem) (l : List Nat) :
    get_image_exportdirectory_tr mh (m, l) =
      (get_image_exportdirectory m mh,
        (m, l ++ (addrs4 (mh + 0x3c) ++
          addrs4 (mh + read32 m (mh + 0x3c) + 0x18 + 0x70)))) := by
  simp only [get_image_exportdirectory_tr, rd32_eq, get_image_exportdirectory,
    List.append_assoc]

theorem gpa_resolve_tr_eq (mh : Nat) (t : List Nat) (m : Mem) (l : List Nat) :
    gpa_resolve_tr mh t (m, l) =
      (gpa_resolve m mh t, (m, l ++ resolveLog m mh t)) := by
  simp only [gpa_resolve_tr, get_image_exportdirectory_tr_eq, rd32_eq,
    gpa_loop_tr_eq, gpa_resolve, resolveLog, headerLog, List.append_assoc]

theorem get_getprocaddress_tr_eq (mh : Nat) (m : Mem) (l : List Nat) :
    get_getprocaddress_tr mh (m, l) =
      (get_getprocaddress m mh, (m, l ++ resolveLog m mh targetName)) := by
  simp only [get_getprocaddress_tr, get_getprocaddress, gpa_resolve_tr_eq]

theorem get_kernel32_modulehandle_tr_eq (gs : Nat) (m : Mem) (l : List Nat) :
    get_kernel32_modulehandle_tr gs (m, l) =
      (get_kernel32_modulehandle m gs, (m, l ++ k32Log m gs)) := by
  simp only [get_kernel32_modulehandle_tr, rd64_eq,
    get_kernel32_modulehandle, k32Log, List.append_assoc]

/-- C9:  Every operation only reads: for every input state, the
memory after each of the three operations equals the memory before it,
and each instrumented run computes the same value as the pure function
of the initial memory (nothing is allocated, cached across calls, or
mutated). -/
theorem operations_read_only (m : Mem) (gs mh : Nat) (l : List Nat) :
    (get_kernel32_modulehandle_tr gs (m, l)).2.1 = m ∧
    (get_kernel32_modulehandle_tr gs (m, l)).1 = get_kernel32_modulehandle m gs ∧
    (get_image_exportdirectory_tr mh (m, l)).2.1 = m ∧
    (get_image_exportdirectory_tr mh (m, l)).1 = get_image_exportdirectory m mh ∧
    (get_getprocaddress_tr mh (m, l)).2.1 = m ∧
    (get_getprocaddress_tr mh (m, l)).1 = get_getprocaddress m mh := by
  refine ⟨?_, ?_, ?_, ?_, ?_, ?_⟩ <;>
    simp [get_kernel32_modulehandle_tr_eq, get_image_exportdirectory_tr_eq,
      get_getprocaddress_tr_eq]

/-- C5:  `get_image_exportdirectory` returns `module_base + rva` with
`rva` obtained exactly as §4.2 describes (32-bit read at `0x3c`, add to
the base, 32-bit read at the further fixed offsets `0x18 + 0x70`), and
it leaves memory untouched.  It is a Lean function of `(m, mh)` alone,
hence deterministic. -/
theorem exportdirectory_matches_spec (m : Mem) (mh : Nat) (l : List Nat) :
    get_image_exportdirectory m mh = locate_export_directory_spec m mh ∧
    (get_image_exportdirectory_tr mh (m, l)).2.1 = m := by
  constructor
  · unfold get_image_exportdirectory locate_export_directory_spec
    rw [Nat.add_assoc (mh + read32 m (mh + 0x3c)) 0x18 0x70]
  · simp [get_image_exportdirectory_tr_eq]

/-- C6:  `get_kernel32_modulehandle` returns the base-address field
(fixed offset `0x20`) of the third entry of the loader module list,
where the list head is reached from the `gs`-relative PEB pointer by
two fixed-offset dereferences and the third entry by exactly two "next"
links; moreover its complete read footprint is exactly those six
64-bit loads. -/
theorem modulehandle_third_entry (m : Mem) (gs : Nat) :
    get_kernel32_modulehandle m gs = dllBase m (moduleEntry m gs 2) ∧
    (get_kernel32_modulehandle_tr gs (m, [])).2.2 = k32Log m gs := by
  constructor
  · rfl
  · simp [get_kernel32_modulehandle_tr_eq]

/-- C10:  When the export directory reports zero named exports,
`get_getprocaddress` returns the sentinel 0 and its read log is exactly
the header fields (`e_lfanew`, the export-directory RVA, and the four
export-directory fields): no entry of the name-offset, ordinal, or
function-offset arrays is read. -/
theorem getprocaddress_empty_table {m : Mem} {mh : Nat}
    (h : read32 m (get_image_exportdirectory m mh + 24) = 0) :
    get_getprocaddress_tr mh (m, []) = (0, (m, headerLog m mh)) := by
  rw [get_getprocaddress_tr_eq]
  simp only [get_getprocaddress, gpa_resolve, resolveLog, h, gpa_loop,
    loopLog, List.append_nil, List.nil_append]

/-- Witness for C10: the synthetic image `mem0` declares zero named
exports. -/
theorem getprocaddress_empty_table_witness :
    read32 mem0 (get_image_exportdirectory mem0 0 + 24) = 0 ∧
      get_getprocaddress_tr 0 (mem0, []) = (0, (mem0, headerLog mem0 0)) :=
  ⟨by decide, @getprocaddress_empty_table mem0 0 (by decide)⟩

/-! ## Termination / resource bound -/

theorem strcmpLog_length_le (m : Mem) :
    ∀ (t : List Nat) (a : Nat), (strcmpLog m a t).length ≤ t.length + 1 := by
  intro t
  induction t with
  | nil => intro a; simp [strcmpLog]
  | cons c cs ih =>
    intro a
    simp only [strcmpLog]
    split
    · simpa using Nat.succ_le_succ (ih (a + 1))
    · simp

theorem loopLog_length_le (m : Mem) (mh aon aof aono : Nat) (t : List Nat) :
    ∀ (k i : Nat),
      (loopLog m mh aon aof aono t i k).length ≤ k * (11 + t.length) := by
  intro k
  induction k with
  | zero => intro i; simp [loopLog]
  | succ k ih =>
    intro i
    simp only [loopLog, iterLog, List.length_append, addrs4, addrs2]
    have h1 := strcmpLog_length_le m t (read32 m (aon + 4 * i) + mh)
    have h2 : (if gpa_strcmp_mem m (read32 m (aon + 4 * i) + mh) t = 0
        then ([] : List Nat)
        else loopLog m mh aon aof aono t (i + 1) k).length ≤
          k * (11 + t.length) := by
      split
      · simp
      · exact ih (i + 1)
    simp only [List.length_cons, List.length_nil]
    have h4 : (k + 1) * (11 + t.length) = k * (11 + t.length) + (11 + t.length) := by
      ring
    rw [h4]
    omega

/-- C7:  Every call terminates after a bounded, finite sequence of
memory reads: with `N` the export directory's `NumberOfNames`, the full
run of `get_getprocaddress` reads at most `24 + 25 * N` bytes (24 for
the fixed header fields; per scan iteration 4 + 2 + 4 array bytes plus
at most 15 bytes of string comparison — so at most `N` iterations, each
finite).  No hypothesis is needed: the embedding is structurally
recursive, so termination is unconditional. -/
theorem getprocaddress_reads_bounded (m : Mem) (mh : Nat) :
    ((get_getprocaddress_tr mh (m, [])).2.2).length ≤
      24 + 25 * read32 m (get_image_exportdirectory m mh + 24) := by
  rw [get_getprocaddress_tr_eq]
  simp only [List.nil_append, resolveLog, List.length_append]
  have h1 : (headerLog m mh).length = 24 := by simp [headerLog, addrs4]
  have h2 := loopLog_length_le m mh
    (read32 m (get_image_exportdirectory m mh + 32) + mh)
    (read32 m (get_image_exportdirectory m mh + 28) + mh)
    (read32 m (get_image_exportdirectory m mh + 36) + mh) targetName
    (read32 m (get_image_exportdirectory m mh + 24)) 0
  have h3 : (11 + targetName.length) = 25 := by decide
  rw [h3] at h2
  omega

/-! ## Access pattern of the scan

The source reads the ordinal entry and the function entry at every
iteration of the scan (src/getprocaddress.c:137–138), before the name
comparison — not only on a match. -/

/-- C3, counterexample:  In the synthetic image `mem2` the only name,
`"Gadget"`, does not match, and the run returns the sentinel 0 — yet
the read log contains byte `0x340` (the first ordinal-array entry) and
byte `0x300` (the function-offset entry selected by that ordinal): the
arrays are read although no match ever occurs. -/
theorem loop_reads_arrays_without_match :
    (get_getprocaddress_tr 0 (mem2, ([] : List Nat))).1 = 0 ∧
      (0x340 : Nat) ∈ (get_getprocaddress_tr 0 (mem2, ([] : List Nat))).2.2 ∧
      (0x300 : Nat) ∈ (get_getprocaddress_tr 0 (mem2, ([] : List Nat))).2.2 := by
  decide

theorem loopLog_reads_arrays {m : Mem} {mh : Nat} {et : ExpTable}
    (hl : tableLoaded m mh et) {k : Nat} (hk : k < et.numNames) :
    ∀ (kk i : Nat), i + kk = et.numNames → i ≤ k →
      (∀ j, i ≤ j → j < k → et.name j ≠ targetName) →
      (et.aonoRva + mh + 2 * k) ∈
        loopLog m mh (et.aonRva + mh) (et.aofRva + mh) (et.aonoRva + mh)
          targetName i kk ∧
      (et.aofRva + mh + 4 * et.ord k) ∈
        loopLog m mh (et.aonRva + mh) (et.aofRva + mh) (et.aonoRva + mh)
          targetName i kk := by
  obtain ⟨hN, hF, hA, hO, hno, hord, hfn, hstr⟩ := hl
  have hvt : ValidStr targetName := by decide
  intro kk
  induction kk with
  | zero => intro i h1 h2 _; omega
  | succ kk ih =>
    intro i hik hikk hpre
    have hiN : i < et.numNames := by omega
    rcases Nat.eq_or_lt_of_le hikk with he | hlt
    · subst he
      simp only [loopLog, iterLog]
      refine ⟨?_, ?_⟩
      · simp [addrs2, addrs4, List.mem_append]
      · rw [hord i hiN]
        simp [addrs2, addrs4, List.mem_append]
    · have hnm : et.name i ≠ targetName := hpre i (Nat.le_refl i) hlt
      simp only [loopLog]
      have hcmp := strcmp_mem_spec targetName (et.nameOff i + mh) (et.name i)
        (hstr i hiN).1 (hstr i hiN).2 hvt
      rw [hno i hiN, if_neg (by rw [hcmp]; exact hnm)]
      have hrec := ih (i + 1) (by omega) hlt
        (fun j hj hjk => hpre j (by omega) hjk)
      exact ⟨List.mem_append_right _ hrec.1, List.mem_append_right _ hrec.2⟩

/-- C3, amended:  During the name scan the ordinal array and the
function-offset array are read at *every* index the loop reaches, not
only at a match: if index `k` is reached (no earlier name matches),
then the run's read log contains the ordinal-array entry at position
`k` and the function-offset entry at index `ordinal[k]` — whether or
not the name at `k` matches. -/
theorem scan_reads_arrays_at_every_index {m : Mem} {mh : Nat}
    {et : ExpTable} {k : Nat} (hl : tableLoaded m mh et)
    (hk : k < et.numNames)
    (hpre : ∀ j, j < k → et.name j ≠ targetName) :
    (et.aonoRva + mh + 2 * k) ∈ (get_getprocaddress_tr mh (m, [])).2.2 ∧
    (et.aofRva + mh + 4 * et.ord k) ∈
      (get_getprocaddress_tr mh (m, [])).2.2 := by
  have h := loopLog_reads_arrays hl hk et.numNames 0 (by omega)
    (Nat.zero_le k) (fun j _ hj => hpre j hj)
  rw [get_getprocaddress_tr_eq]
  simp only [List.nil_append, resolveLog]
  rw [hl.1, hl.2.1, hl.2.2.1, hl.2.2.2.1]
  exact ⟨List.mem_append_right _ h.1, List.mem_append_right _ h.2⟩

/-- Witness for the amended C3: in `mem2` index 0 is reached (there is
no earlier index) and its name `"Gadget"` does not match, yet both its
ordinal entry and the selected function entry appear in the read log. -/
theorem scan_reads_arrays_at_every_index_witness :
    (et2.aonoRva + 0 + 2 * 0) ∈ (get_getprocaddress_tr 0 (mem2, [])).2.2 ∧
    (et2.aofRva + 0 + 4 * et2.ord 0) ∈
      (get_getprocaddress_tr 0 (mem2, [])).2.2 :=
  @scan_reads_arrays_at_every_index mem2 0 et2 0 (by decide) (by decide)
    (fun j hj => absurd hj (Nat.not_lt_zero j))
